import Mathlib

/-!
Shallow embedding of the querido-diario excerpt:
* `gazette/spiders/ro/ro_ji_parana.py` — listing parsing and page-scoped
  aggregation (`_validate_uniqueness`, `_yield_gazettes`,
  `parse_year_post_2013_split`, `IS_EXTRA_EDITION_PATTERN`);
* `gazette/pipelines.py` — `GazetteDateFilteringPipeline`,
  `SQLDatabasePipeline.process_item`, `QueridoDiarioFilesPipeline.file_path`
  and `file_path_for_sp_ribeirao_preto`.

Python strings are embedded as `String`, with all computations carried out on
the underlying `List Char` (code points), matching CPython semantics for the
operations used (code-point-wise comparison, substring search, `str.replace`).
Bytes objects are embedded as `List Nat` of byte values.
-/

set_option autoImplicit false

namespace QD

/-! ### Character-list string operations -/

/-- Python string `<=`: lexicographic comparison by code point. -/
def lexLe : List Char → List Char → Bool
  | [], _ => true
  | _ :: _, [] => false
  | a :: as, b :: bs =>
    if a.toNat < b.toNat then true
    else if b.toNat < a.toNat then false
    else lexLe as bs

/-- Whether `pat` occurs as a contiguous substring of `text`
(the semantics of a successful `re.search` for a literal). -/
def containsSub (pat : List Char) : List Char → Bool
  | [] => pat.isPrefixOf []
  | c :: rest => pat.isPrefixOf (c :: rest) || containsSub pat rest

/-- Case folding for the alphabet appearing in `IS_EXTRA_EDITION_PATTERN`
(ASCII letters plus the accented `Á` of `extraordinária`), embedding
`re.IGNORECASE` matching. -/
def foldChar (c : Char) : Char :=
  if 65 ≤ c.toNat ∧ c.toNat ≤ 90 then Char.ofNat (c.toNat + 32)
  else if c.toNat = 193 then Char.ofNat 225
  else c

/-- `str.replace("http://", "https://")`: replace every (non-overlapping,
left-to-right) occurrence. -/
def httpToHttps : List Char → List Char
  | [] => []
  | c :: rest =>
    if ("http://".data).isPrefixOf (c :: rest) then
      "https://".data ++ httpToHttps (rest.drop 6)
    else c :: httpToHttps rest
  termination_by l => l.length
  decreasing_by
    · simp only [List.length_cons, List.length_drop]
      omega
    · simp only [List.length_cons]
      omega

/-- URL normalization performed in `parse_year_post_2013_split`:
`response.urljoin(...)` output (taken as the absolute URL input here)
with `http://` upgraded to `https://`. -/
def normalizeUrl (url : String) : String :=
  String.mk (httpToHttps url.data)

/-! ### Python `datetime.date` -/

/-- `datetime.date`: compared lexicographically on (year, month, day). -/
structure PyDate where
  year : Nat
  month : Nat
  day : Nat
deriving DecidableEq, Repr

/-- Python `date.__lt__`. -/
def PyDate.ltB (a b : PyDate) : Bool :=
  if a.year ≠ b.year then decide (a.year < b.year)
  else if a.month ≠ b.month then decide (a.month < b.month)
  else decide (a.day < b.day)

/-- Python `date.__le__`. -/
def PyDate.leB (a b : PyDate) : Bool :=
  a.ltB b || a == b

/-! ### `IS_EXTRA_EDITION_PATTERN` -/

/-- The literal alternatives denoted by the regex `(sum?ple?mento|extraordinária)`:
`m` and the first `e` are each optional. -/
def extraEditionVariants : List (List Char) :=
  ["suplmento".data, "suplemento".data, "sumplmento".data, "sumplemento".data,
   "extraordinária".data]

/-- `bool(IS_EXTRA_EDITION_PATTERN.search(s))`: some alternative occurs in `s`,
case-insensitively. -/
def isExtraEditionMatch (s : String) : Bool :=
  extraEditionVariants.any (fun v => containsSub v (s.data.map foldChar))

/-! ### Aggregation state (`GazettesDataPerPage`) -/

/-- Key of the outer dict: `(gazette_date, edition_number, is_extra_edition)`. -/
structure GroupKey where
  date : PyDate
  edition_number : String
  is_extra_edition : Bool
deriving DecidableEq, Repr

/-- Inner dict: `is_extra_edition_text ↦ set of urls`. A Python dict preserves
insertion order, so it is embedded as an association list with unique keys;
the url set likewise records first-insertion order and holds no duplicates. -/
abbrev InnerMap := List (String × List String)

/-- The nested dict `current_gazettes_data_per_page`. -/
abbrev GazettesDataPerPage := List (GroupKey × InnerMap)

/-- `set.add` guarded by the `if url in current_gazette_url_set` check. -/
def insertUrl (us : List String) (u : String) : List String :=
  if u ∈ us then us else us ++ [u]

/-- `setdefault(is_extra_edition_text, set())` followed by the guarded add. -/
def insertInner : InnerMap → String → String → InnerMap
  | [], t, u => [(t, [u])]
  | (k, us) :: rest, t, u =>
    if k = t then (k, insertUrl us u) :: rest
    else (k, us) :: insertInner rest t u

/-- `setdefault(current_gazette_key, {})` followed by the inner update. -/
def insertOuter : GazettesDataPerPage → GroupKey → String → String → GazettesDataPerPage
  | [], key, t, u => [(key, [(t, [u])])]
  | (k, m) :: rest, key, t, u =>
    if k = key then (k, insertInner m t u) :: rest
    else (k, m) :: insertOuter rest key t u

/-- `RoJiParana._validate_uniqueness`: the 2014-08-28 non-`.pdf` exception is
skipped; otherwise the url is registered under
`(gazette_date, edition_number, is_extra_edition)` and `is_extra_edition_text`
(re-registration of a present url is a logged no-op, realized by `insertUrl`). -/
def validate_uniqueness (s : GazettesDataPerPage) (gazette_date : PyDate)
    (edition_number : String) (is_extra_edition : Bool)
    (is_extra_edition_text : String) (url : String) : GazettesDataPerPage :=
  if gazette_date = ⟨2014, 8, 28⟩ ∧ ¬(".pdf".data.isSuffixOf url.data) then s
  else
    insertOuter s ⟨gazette_date, edition_number, is_extra_edition⟩
      is_extra_edition_text url

/-! ### `_yield_gazettes` -/

/-- The `Gazette` item constructed by `_yield_gazettes`. -/
structure Gazette where
  edition_number : String
  date : PyDate
  is_extra_edition : Bool
  file_urls : List String
  power : String
deriving DecidableEq, Repr

/-- Python string `<=` as a relation, for sorting. -/
def strLe (a b : String) : Prop := lexLe a.data b.data = true

instance strLe.decidableRel : DecidableRel strLe := fun a b =>
  inferInstanceAs (Decidable (lexLe a.data b.data = true))

theorem lexLe_total : ∀ a b : List Char, lexLe a b = true ∨ lexLe b a = true
  | [], _ => Or.inl rfl
  | _ :: _, [] => Or.inr rfl
  | a :: as, b :: bs => by
    simp only [lexLe]
    rcases Nat.lt_trichotomy a.toNat b.toNat with h | h | h
    · left
      simp [h]
    · simp only [h, lt_irrefl, if_false]
      exact lexLe_total as bs
    · right
      simp [h]

theorem lexLe_trans :
    ∀ a b c : List Char, lexLe a b = true → lexLe b c = true → lexLe a c = true
  | [], _, _, _, _ => rfl
  | a :: as, [], c, h1, _ => by simp [lexLe] at h1
  | a :: as, b :: bs, [], _, h2 => by simp [lexLe] at h2
  | a :: as, b :: bs, c :: cs, h1, h2 => by
    simp only [lexLe] at h1 h2 ⊢
    split_ifs at h1 h2 ⊢ <;> first
      | rfl
      | omega
      | exact lexLe_trans as bs cs h1 h2

instance strLe.isTotal : IsTotal String strLe := ⟨fun a b => lexLe_total a.data b.data⟩

instance strLe.isTrans : IsTrans String strLe :=
  ⟨fun a b c => lexLe_trans a.data b.data c.data⟩

/-- `sorted(by_is_extra_edition_text)`: the dict keys sorted by Python string
order (code-point lexicographic). The dict's keys are pairwise distinct, so
any correct sort agrees with CPython's stable sort here; `insertionSort` is
itself stable in any case. -/
def sortedKeys (m : InnerMap) : List String :=
  (m.map Prod.fst).insertionSort strLe

/-- One iteration of the `for key in sorted(...)` loop, applied to the url
set looked up for the key: accumulator is
`(yield_gazette, current_gazette_urls)`. On a url set with more than one
member the flag is cleared; otherwise `url_set.pop()` appends the single
member (url sets are nonempty by construction, so `headD` never defaults). -/
def collectBranch (acc : Bool × List String) : Option (List String) → Bool × List String
  | none => acc
  | some us =>
    if 1 < us.length then (false, acc.2)
    else (acc.1, acc.2 ++ [us.headD ""])

def collectStep (m : InnerMap) (acc : Bool × List String) (k : String) :
    Bool × List String :=
  collectBranch acc (m.lookup k)

/-- The whole inner loop of `_yield_gazettes` for one group. -/
def collectUrls (m : InnerMap) : Bool × List String :=
  (sortedKeys m).foldl (collectStep m) (true, [])

/-- The `Gazette(...)` constructor call at the end of `_yield_gazettes`. -/
def mkGazette (key : GroupKey) (urls : List String) : Gazette :=
  { edition_number := key.edition_number
    date := key.date
    is_extra_edition := key.is_extra_edition
    file_urls := urls
    power := "executive" }

/-- `_yield_gazettes`: iterate the outer dict in insertion order, emit a
`Gazette` for each group whose `yield_gazette` flag survived. -/
def yield_gazettes : GazettesDataPerPage → List Gazette
  | [] => []
  | (key, m) :: rest =>
    if (collectUrls m).1 then mkGazette key (collectUrls m).2 :: yield_gazettes rest
    else yield_gazettes rest

/-! ### `parse_year_post_2013_split` -/

/-- One listing entry after the `POST_2013_SPLIT_GAZETTE_TEXT_PATTERN` match
succeeded: group(1), group(2).strip(), the three numeric date groups, and the
absolute href (`response.urljoin` output). Entries whose pattern match fails
are logged and skipped before this point. -/
structure ParsedEntry where
  edition_number : String
  is_extra_edition_text : String
  year_value : Nat
  month_value : Nat
  day_value : Nat
  href : String
deriving DecidableEq, Repr

/-- The `is_extra_edition` classification of one entry:
`bool(search(text)) or bool(search(url))` on the normalized URL. -/
def entry_is_extra_edition (e : ParsedEntry) : Bool :=
  isExtraEditionMatch e.is_extra_edition_text
    || isExtraEditionMatch (normalizeUrl e.href)

/-- The loop body of `parse_year_post_2013_split` for one matched entry:
skip on year mismatch, skip outside `[start_date, end_date]`, otherwise
classify and register. -/
def process_entry (year : Nat) (start_date end_date : PyDate)
    (s : GazettesDataPerPage) (e : ParsedEntry) : GazettesDataPerPage :=
  let gazette_date : PyDate := ⟨e.year_value, e.month_value, e.day_value⟩
  if gazette_date.year ≠ year then s
  else if ¬(start_date.leB gazette_date && gazette_date.leB end_date) then s
  else
    let url := normalizeUrl e.href
    validate_uniqueness s gazette_date e.edition_number
      (entry_is_extra_edition e) e.is_extra_edition_text url

/-- The whole per-page scan: fold the loop body over the page's matched
entries starting from the empty dict. -/
def process_page (year : Nat) (start_date end_date : PyDate)
    (entries : List ParsedEntry) : GazettesDataPerPage :=
  entries.foldl (process_entry year start_date end_date) []

/-- `parse_year_post_2013_split`: gather the page, then
`yield from _yield_gazettes(...)`. -/
def parse_year_post_2013_split (year : Nat) (start_date end_date : PyDate)
    (entries : List ParsedEntry) : List Gazette :=
  yield_gazettes (process_page year start_date end_date entries)

/-- A raw registration triple as fed to `_validate_uniqueness`
(used to quantify over aggregation runs). -/
structure Triple where
  date : PyDate
  edition_number : String
  is_extra_edition : Bool
  text : String
  url : String
deriving DecidableEq, Repr

/-- Register a list of triples in order, starting from the empty page state. -/
def registerAll (ts : List Triple) : GazettesDataPerPage :=
  ts.foldl
    (fun s t =>
      validate_uniqueness s t.date t.edition_number t.is_extra_edition t.text t.url)
    []

/-- Well-formedness maintained for every inner dict: keys are unique and
every url set is nonempty (a `PartKey` is only ever created together with an
insertion). -/
def InnerWF (m : InnerMap) : Prop :=
  (m.map Prod.fst).Nodup ∧ ∀ p ∈ m, p.2 ≠ []

/-- Well-formedness of the page state: unique group keys, well-formed inner
dicts. -/
def StateWF (s : GazettesDataPerPage) : Prop :=
  (s.map Prod.fst).Nodup ∧ ∀ p ∈ s, InnerWF p.2

/-! ### `pipelines.py`: files pipeline data -/

/-- Python `bytes`: a list of byte values. -/
abbrev Bytes := List Nat

structure ScrapyRequest where
  url : String
deriving DecidableEq, Repr

/-- A response, observed through its headers only. -/
structure ScrapyResponse where
  headers : List (String × Bytes)
deriving DecidableEq, Repr

/-- The item fields read by `file_path`. -/
structure FilesItem where
  date : PyDate
  territory_id : String
deriving DecidableEq, Repr

/-! ### `SP_RIBEIRAO_PRETO_PDF_FILENAME = re.compile(rb'filename="([^"]+)"')` -/

/-- The bytes of the literal segment `filename="` of the pattern. -/
def filenameLit : Bytes := "filename=\"".data.map Char.toNat

/-- Match the pattern at the start of `b`, returning group 1. The group
`[^"]+` is greedy over non-quote bytes (byte 34) and must be followed by a
closing quote. -/
def matchFilenameAt (b : Bytes) : Option Bytes :=
  if filenameLit.isPrefixOf b then
    let rest := b.drop filenameLit.length
    let grp := rest.takeWhile (fun x => x ≠ 34)
    if 0 < grp.length ∧ (rest.drop grp.length).head? = some 34 then some grp
    else none
  else none

/-- `SP_RIBEIRAO_PRETO_PDF_FILENAME.search(b)`: leftmost match wins. -/
def searchFilename : Bytes → Option Bytes
  | [] => none
  | x :: rest =>
    match matchFilenameAt (x :: rest) with
    | some g => some g
    | none => searchFilename rest

/-! ### `hashlib.sha1(...).hexdigest()` (FIPS 180 SHA-1) -/

/-- Truncate to a 32-bit word. -/
def w32 (x : Nat) : Nat := x % 4294967296

/-- 32-bit left rotation (input assumed `< 2^32`). -/
def rotl (n x : Nat) : Nat := w32 ((x <<< n) ||| (x >>> (32 - n)))

def sha1K (t : Nat) : Nat :=
  if t < 20 then 0x5A827999
  else if t < 40 then 0x6ED9EBA1
  else if t < 60 then 0x8F1BBCDC
  else 0xCA62C1D6

def sha1F (t b c d : Nat) : Nat :=
  if t < 20 then (b &&& c) ||| ((4294967295 - b) &&& d)
  else if t < 40 then (b ^^^ c) ^^^ d
  else if t < 60 then ((b &&& c) ||| (b &&& d)) ||| (c &&& d)
  else (b ^^^ c) ^^^ d

/-- `n` big-endian bytes of `x`. -/
def beBytes (n x : Nat) : Bytes :=
  (List.range n).map (fun i => (x >>> (8 * (n - 1 - i))) %  256)

/-- Merkle–Damgård padding: `0x80`, zeros to 56 mod 64, 64-bit bit length. -/
def sha1Pad (msg : Bytes) : Bytes :=
  msg ++ [128] ++ List.replicate ((56 + 64 - (msg.length + 1) % 64) % 64) 0
    ++ beBytes 8 (8 * msg.length)

def toChunks : Bytes → List Bytes
  | [] => []
  | b :: rest => ((b :: rest).take 64) :: toChunks (rest.drop 63)
  termination_by l => l.length
  decreasing_by
    simp only [List.length_drop, List.length_cons]
    omega

/-- Big-endian 32-bit words of a chunk. -/
def bytesToWords : Bytes → List Nat
  | b0 :: b1 :: b2 :: b3 :: rest =>
    (((b0 * 256 + b1) * 256 + b2) * 256 + b3) :: bytesToWords rest
  | _ => []

/-- Extend 16 words to the 80-word schedule. -/
def extendWords (ws : List Nat) : List Nat :=
  (List.range 64).foldl
    (fun ws _ =>
      let n := ws.length
      ws ++ [rotl 1 (((ws.getD (n - 3) 0) ^^^ (ws.getD (n - 8) 0)) ^^^
        ((ws.getD (n - 14) 0) ^^^ (ws.getD (n - 16) 0)))])
    ws

structure Sha1State where
  h0 : Nat
  h1 : Nat
  h2 : Nat
  h3 : Nat
  h4 : Nat
deriving DecidableEq, Repr

def processChunk (h : Sha1State) (chunk : Bytes) : Sha1State :=
  let ws := extendWords (bytesToWords chunk)
  let fin := (List.range 80).foldl
    (fun st t =>
      match st with
      | (a, b, c, d, e) =>
        (w32 (rotl 5 a + sha1F t b c d + e + sha1K t + ws.getD t 0),
         a, rotl 30 b, c, d))
    ((h.h0, h.h1, h.h2, h.h3, h.h4) : Nat × Nat × Nat × Nat × Nat)
  match fin with
  | (a, b, c, d, e) =>
    ⟨w32 (h.h0 + a), w32 (h.h1 + b), w32 (h.h2 + c), w32 (h.h3 + d), w32 (h.h4 + e)⟩

def sha1Digest (msg : Bytes) : Sha1State :=
  (toChunks (sha1Pad msg)).foldl processChunk
    ⟨0x67452301, 0xEFCDAB89, 0x98BADCFE, 0x10325476, 0xC3D2E1F0⟩

def hexDigit (n : Nat) : Char :=
  if n < 10 then Char.ofNat (48 + n) else Char.ofNat (87 + n)

def hex8 (x : Nat) : List Char :=
  (List.range 8).map (fun i => hexDigit ((x >>> (4 * (7 - i))) % 16))

/-- `hashlib.sha1(msg).hexdigest()`. -/
def sha1Hex (msg : Bytes) : String :=
  let s := sha1Digest msg
  String.mk (hex8 s.h0 ++ hex8 s.h1 ++ hex8 s.h2 ++ hex8 s.h3 ++ hex8 s.h4)

/-! ### `pathlib` name/stem and `strftime` -/

/-- `PurePath(p).name` for paths without trailing separators: everything
after the last `/` (the shape `super().file_path` produces, `full/<base>`). -/
def pathNameC (l : List Char) : List Char :=
  (l.reverse.takeWhile (fun c => c ≠ '/')).reverse

def pathName (p : String) : String := String.mk (pathNameC p.data)

/-- `PurePath` suffix stripping applied to a final component `nm`:
`i = nm.rfind('.')`; if `0 < i < len nm - 1` then `nm[:i]` else `nm`. -/
def stemC (nm : List Char) : List Char :=
  match nm.reverse.findIdx? (fun c => c = '.') with
  | none => nm
  | some j =>
    let i := nm.length - 1 - j
    if 0 < i ∧ i < nm.length - 1 then nm.take i else nm

/-- `PurePath(p).stem`. -/
def pathStem (p : String) : String := String.mk (stemC (pathNameC p.data))

/-- Decimal rendering zero-padded to `width`. -/
def padNum (width n : Nat) : List Char :=
  let s := (Nat.repr n).data
  List.replicate (width - s.length) '0' ++ s

/-- `date.strftime("%Y-%m-%d")` (also `str(date)`, the ISO format). -/
def dateStrftime (d : PyDate) : String :=
  String.mk ((padNum 4 d.year ++ ['-']) ++ (padNum 2 d.month ++ ['-']) ++ padNum 2 d.day)

/-! ### `QueridoDiarioFilesPipeline.file_path` -/

/-- `file_path_for_sp_ribeirao_preto`: hash of exactly the sniffed filename
bytes (group 1 of the header match); the request plays no part. The caller
guarantees the header and the match exist, which `getD` reflects. -/
def file_path_for_sp_ribeirao_preto (response : ScrapyResponse) (item : FilesItem) :
    String :=
  let content_disposition := (response.headers.lookup "Content-Disposition").getD []
  let pdf_filename := (searchFilename content_disposition).getD []
  item.territory_id ++ "/" ++ dateStrftime item.date ++ "/" ++ sha1Hex pdf_filename

/-- The fall-through tail of `file_path`: take the default path from
`super().file_path` (passed in as `superPath`, the external collaborator's
result, of shape `full/<base name>`), keep its base name — stem-stripped for
territory 3543402 — and prepend `<territory_id>/<date>`. -/
def file_path_fallback (superPath : String) (item : FilesItem) : String :=
  let filename := pathName superPath
  let filename :=
    if item.territory_id = "3543402" then pathStem superPath else filename
  item.territory_id ++ "/" ++ dateStrftime item.date ++ "/" ++ filename

/-- The walrus-guarded header inspection inside `file_path`, applied to the
looked-up `Content-Disposition` value. The test is Python truthiness: an
absent header and an empty one both fall through, as does one the filename
pattern does not match (each with its own informational log). -/
def sniffDecision (superPath : String) (resp : ScrapyResponse) (item : FilesItem) :
    Option Bytes → String
  | some cd =>
    if cd ≠ [] ∧ (searchFilename cd).isSome then
      file_path_for_sp_ribeirao_preto resp item
    else file_path_fallback superPath item
  | none => file_path_fallback superPath item

/-- `QueridoDiarioFilesPipeline.file_path`. -/
def file_path : String → ScrapyRequest → Option ScrapyResponse → FilesItem → String
  | superPath, _request, some resp, item =>
    if item.territory_id = "3543402" then
      sniffDecision superPath resp item (resp.headers.lookup "Content-Disposition")
    else file_path_fallback superPath item
  | superPath, _request, none, item => file_path_fallback superPath item

/-- Whether the content-sniffing branch of `file_path` is unavailable: no
response, no `Content-Disposition` header, an empty (falsy) header value, or
a header that the filename pattern does not match. -/
def noSniffedName : Option ScrapyResponse → Bool
  | none => true
  | some resp =>
    match resp.headers.lookup "Content-Disposition" with
    | none => true
    | some cd => cd.isEmpty || (searchFilename cd).isNone

/-! ### `SQLDatabasePipeline.process_item` -/

/-- One entry of the item's `files` list. -/
structure FileInfo where
  status : String
  path : String
  url : String
  checksum : String
deriving DecidableEq, Repr

/-- The item reaching the SQL pipeline. -/
structure SinkItem where
  source_text : String
  date : PyDate
  edition_number : String
  is_extra_edition : Bool
  power : String
  scraped_at : String
  territory_id : String
  files : List FileInfo
deriving DecidableEq, Repr

/-- One row of the `gazettes` table as built by `Gazette(**gazette_item)`. -/
structure GazetteRow where
  source_text : String
  date : PyDate
  edition_number : String
  is_extra_edition : Bool
  power : String
  scraped_at : String
  territory_id : String
  file_path : String
  file_url : String
  file_checksum : String
deriving DecidableEq, Repr

/-- `gazette_item` plus the three per-file fields set inside the loop. -/
def mkRow (item : SinkItem) (f : FileInfo) : GazetteRow :=
  { source_text := item.source_text
    date := item.date
    edition_number := item.edition_number
    is_extra_edition := item.is_extra_edition
    power := item.power
    scraped_at := item.scraped_at
    territory_id := item.territory_id
    file_path := f.path
    file_url := f.url
    file_checksum := f.checksum }

/-- The warning logged on `SQLAlchemyError`, carrying the identifying fields
from the message (`gazette_item['date']`, `gazette_item['file_checksum']`). -/
inductive SinkLog where
  | dbWarning (date : PyDate) (checksum : String)
deriving DecidableEq, Repr

/-- One iteration of the `for file_info in item.get("files", [])` loop.
`commitOk` is the database oracle: whether `session.commit()` succeeds for
this row given the current table contents. On failure `session.rollback()`
leaves the table as it was and a warning is logged. The `uptodate` guard
`continue`s with no effect and no log. -/
def sqlStep (commitOk : List GazetteRow → GazetteRow → Bool) (item : SinkItem)
    (st : List GazetteRow × List SinkLog) (f : FileInfo) :
    List GazetteRow × List SinkLog :=
  if f.status = "uptodate" then st
  else
    let row := mkRow item f
    if commitOk st.1 row then (st.1 ++ [row], st.2)
    else (st.1, st.2 ++ [.dbWarning item.date f.checksum])

/-- Outcome of `SQLDatabasePipeline.process_item`: final table contents,
warnings, and the returned item. -/
structure SinkResult where
  db : List GazetteRow
  logs : List SinkLog
  returned : SinkItem
deriving DecidableEq, Repr

/-- `SQLDatabasePipeline.process_item` on the `database_url is not None`
path: loop over the files, then `return item`. -/
def sql_process_item (commitOk : List GazetteRow → GazetteRow → Bool)
    (db : List GazetteRow) (item : SinkItem) : SinkResult :=
  let r := item.files.foldl (sqlStep commitOk item) (db, [])
  ⟨r.1, r.2, item⟩

/-! ### `GazetteDateFilteringPipeline.process_item` -/

/-- The two spider attributes this pipeline could read; `start_date = none`
embeds `hasattr(spider, "start_date")` being false. -/
structure SpiderAttrs where
  start_date : Option PyDate
  end_date : Option PyDate
deriving DecidableEq, Repr

/-- Either `raise DropItem(msg)` or the returned item (its date). -/
inductive FilterResult where
  | dropped (msg : String)
  | kept (date : PyDate)
deriving DecidableEq, Repr

def FilterResult.isDroppedB : FilterResult → Bool
  | .dropped _ => true
  | .kept _ => false

/-- `GazetteDateFilteringPipeline.process_item`: drop iff the spider has a
`start_date` and `spider.start_date > item.get("date")`. -/
def date_filtering_process_item (spider : SpiderAttrs) (item_date : PyDate) :
    FilterResult :=
  match spider.start_date with
  | none => .kept item_date
  | some sd =>
    if item_date.ltB sd then
      .dropped ("Droping all items before " ++ dateStrftime sd)
    else .kept item_date

/-! ### Concrete scenario inputs used by witnesses -/

def c9f1 : FileInfo := ⟨"new", "p1", "u1", "c1"⟩

def c9f2 : FileInfo := ⟨"new", "p2", "u2", "bad"⟩

def c9f3 : FileInfo := ⟨"new", "p3", "u3", "c3"⟩

def c9item : SinkItem :=
  { source_text := "t"
    date := ⟨2024, 1, 2⟩
    edition_number := "5"
    is_extra_edition := false
    power := "executive"
    scraped_at := "s"
    territory_id := "1100122"
    files := [c9f1, c9f2, c9f3] }

/-- A database oracle that rejects exactly the row with checksum `"bad"`. -/
def c9commit : List GazetteRow → GazetteRow → Bool :=
  fun _ r => r.file_checksum != "bad"

def c5header : Bytes := "inline; filename=\"relatorio.pdf\"".data.map Char.toNat

def c5fname : Bytes := "relatorio.pdf".data.map Char.toNat

/-! ## Lemmas: idempotence of insertion -/

theorem insertUrl_idem (us : List String) (u : String) :
    insertUrl (insertUrl us u) u = insertUrl us u := by
  by_cases h : u ∈ us
  · simp [insertUrl, h]
  · simp [insertUrl, h]

theorem insertInner_idem (m : InnerMap) (t u : String) :
    insertInner (insertInner m t u) t u = insertInner m t u := by
  induction m with
  | nil => simp [insertInner, insertUrl]
  | cons p rest ih =>
    obtain ⟨k, us⟩ := p
    by_cases h : k = t
    · simp [insertInner, h, insertUrl_idem]
    · simp [insertInner, h, ih]

theorem insertOuter_idem (s : GazettesDataPerPage) (key : GroupKey) (t u : String) :
    insertOuter (insertOuter s key t u) key t u = insertOuter s key t u := by
  induction s with
  | nil => simp [insertOuter, insertInner, insertUrl]
  | cons p rest ih =>
    obtain ⟨k, m⟩ := p
    by_cases h : k = key
    · simp [insertOuter, h, insertInner_idem]
    · simp [insertOuter, h, ih]

/-- C4: registering the same `(GroupKey, PartKey, URL)` triple a second time
leaves the aggregation state unchanged, and hence the records emitted by
`_yield_gazettes` after a double registration equal those after a single
one. -/
theorem registration_idempotent (s : GazettesDataPerPage) (d : PyDate)
    (en : String) (ex : Bool) (t u : String) :
    validate_uniqueness (validate_uniqueness s d en ex t u) d en ex t u
      = validate_uniqueness s d en ex t u ∧
    yield_gazettes (validate_uniqueness (validate_uniqueness s d en ex t u) d en ex t u)
      = yield_gazettes (validate_uniqueness s d en ex t u) := by
  have h : validate_uniqueness (validate_uniqueness s d en ex t u) d en ex t u
      = validate_uniqueness s d en ex t u := by
    unfold validate_uniqueness
    split_ifs
    · rfl
    · exact insertOuter_idem s _ t u
  exact ⟨h, by rw [h]⟩

/-! ## C7: year-boundary rejection -/

/-- C7: an entry whose embedded date has a year different from the queried
year is skipped — the loop body returns the state unchanged — so the page's
emitted gazettes equal those of the page without that entry. -/
theorem year_boundary_rejection (year : Nat) (start_date end_date : PyDate)
    (s : GazettesDataPerPage) (pre post : List ParsedEntry) (e : ParsedEntry)
    (h : e.year_value ≠ year) :
    process_entry year start_date end_date s e = s ∧
    parse_year_post_2013_split year start_date end_date (pre ++ e :: post)
      = parse_year_post_2013_split year start_date end_date (pre ++ post) := by
  have hskip : ∀ s', process_entry year start_date end_date s' e = s' := by
    intro s'
    unfold process_entry
    simp [h]
  refine ⟨hskip s, ?_⟩
  unfold parse_year_post_2013_split process_page
  rw [List.foldl_append, List.foldl_cons, hskip, ← List.foldl_append]

theorem year_boundary_rejection_witness :
    process_entry 2020 ⟨2013, 6, 3⟩ ⟨2024, 12, 31⟩ []
      ⟨"100", "", 2021, 5, 5, "https://x/a.pdf"⟩ = [] ∧
    parse_year_post_2013_split 2020 ⟨2013, 6, 3⟩ ⟨2024, 12, 31⟩
      [⟨"100", "", 2021, 5, 5, "https://x/a.pdf"⟩,
       ⟨"101", "", 2020, 5, 6, "https://x/b.pdf"⟩]
      = parse_year_post_2013_split 2020 ⟨2013, 6, 3⟩ ⟨2024, 12, 31⟩
        [⟨"101", "", 2020, 5, 6, "https://x/b.pdf"⟩] :=
  year_boundary_rejection 2020 ⟨2013, 6, 3⟩ ⟨2024, 12, 31⟩ [] []
    [⟨"101", "", 2020, 5, 6, "https://x/b.pdf"⟩]
    ⟨"100", "", 2021, 5, 5, "https://x/a.pdf"⟩ (by decide)

/-! ## C3: extra-edition OR semantics -/

/-- C3: an entry is classified `is_extra_edition` exactly when the
extra-edition pattern matches its free-text segment or its normalized URL
(or both), and `false` exactly when neither matches; the pattern accepts the
documented typo variants case-insensitively and rejects plain part labels. -/
theorem extra_edition_or_semantics :
    (∀ e : ParsedEntry,
      entry_is_extra_edition e = true ↔
        (isExtraEditionMatch e.is_extra_edition_text = true ∨
          isExtraEditionMatch (normalizeUrl e.href) = true)) ∧
    (∀ e : ParsedEntry,
      entry_is_extra_edition e = false ↔
        (isExtraEditionMatch e.is_extra_edition_text = false ∧
          isExtraEditionMatch (normalizeUrl e.href) = false)) ∧
    isExtraEditionMatch "Suplemento" = true ∧
    isExtraEditionMatch "SUMPLEMENTO" = true ∧
    isExtraEditionMatch "suplmento" = true ∧
    isExtraEditionMatch "extraordinária" = true ∧
    isExtraEditionMatch "EXTRAORDINÁRIA" = true ∧
    isExtraEditionMatch "Parte 1" = false ∧
    isExtraEditionMatch "https://diariooficialjp.com.br/pdf/2010-07-14-suplemento.pdf"
      = true := by
  refine ⟨?_, ?_, by decide, by decide, by decide, by decide, by decide, by decide,
    by decide⟩
  · intro e
    simp [entry_is_extra_edition]
  · intro e
    simp [entry_is_extra_edition]

/-! ## C10: date-filter lower bound -/

/-- C10: `GazetteDateFilteringPipeline.process_item` drops exactly when the
spider has a `start_date` strictly greater than the item's date; a date equal
to `start_date` or a spider without the attribute keeps the item unchanged,
and the spider's `end_date` plays no part. -/
theorem date_filter_lower_bound (spider : SpiderAttrs) (d : PyDate) :
    ((date_filtering_process_item spider d).isDroppedB = true ↔
      ∃ sd, spider.start_date = some sd ∧ d.ltB sd = true) ∧
    (∀ sd, spider.start_date = some sd → d.ltB sd = true →
      date_filtering_process_item spider d
        = .dropped ("Droping all items before " ++ dateStrftime sd)) ∧
    (∀ sd, spider.start_date = some sd → d.ltB sd = false →
      date_filtering_process_item spider d = .kept d) ∧
    (spider.start_date = none → date_filtering_process_item spider d = .kept d) ∧
    (∀ ed, date_filtering_process_item ⟨spider.start_date, ed⟩ d
      = date_filtering_process_item spider d) := by
  obtain ⟨sd?, ed?⟩ := spider
  cases sd? with
  | none =>
    refine ⟨by simp [date_filtering_process_item, FilterResult.isDroppedB], ?_, ?_, ?_, ?_⟩
    · intro sd hsd
      exact absurd hsd (by simp)
    · intro sd hsd
      exact absurd hsd (by simp)
    · intro _
      rfl
    · intro _
      rfl
  | some sd =>
    by_cases h : d.ltB sd = true
    · refine ⟨?_, ?_, ?_, ?_, ?_⟩
      · simp [date_filtering_process_item, h, FilterResult.isDroppedB]
      · intro sd' hsd' _
        obtain rfl : sd' = sd := by injection hsd' with h'; exact h'.symm
        simp [date_filtering_process_item, h]
      · intro sd' hsd' hlt
        obtain rfl : sd' = sd := by injection hsd' with h'; exact h'.symm
        rw [h] at hlt
        exact absurd hlt (by simp)
      · intro hn
        exact absurd hn (by simp)
      · intro _
        rfl
    · refine ⟨?_, ?_, ?_, ?_, ?_⟩
      · simp only [date_filtering_process_item, h]
        constructor
        · intro hd
          simp [FilterResult.isDroppedB] at hd
        · rintro ⟨sd', hsd', hlt⟩
          obtain rfl : sd' = sd := by injection hsd' with h'; exact h'.symm
          exact absurd hlt h
      · intro sd' hsd' hlt
        obtain rfl : sd' = sd := by injection hsd' with h'; exact h'.symm
        exact absurd hlt h
      · intro sd' hsd' _
        obtain rfl : sd' = sd := by injection hsd' with h'; exact h'.symm
        simp [date_filtering_process_item, h]
      · intro hn
        exact absurd hn (by simp)
      · intro _
        rfl

theorem date_filter_lower_bound_witness :
    date_filtering_process_item ⟨some ⟨2020, 1, 1⟩, none⟩ ⟨2019, 12, 31⟩
      = .dropped ("Droping all items before " ++ dateStrftime ⟨2020, 1, 1⟩) ∧
    date_filtering_process_item ⟨some ⟨2020, 1, 1⟩, some ⟨2024, 1, 1⟩⟩ ⟨2020, 1, 1⟩
      = .kept ⟨2020, 1, 1⟩ :=
  ⟨(date_filter_lower_bound ⟨some ⟨2020, 1, 1⟩, none⟩ ⟨2019, 12, 31⟩).2.1
      ⟨2020, 1, 1⟩ rfl (by decide),
    (date_filter_lower_bound ⟨some ⟨2020, 1, 1⟩, some ⟨2024, 1, 1⟩⟩ ⟨2020, 1, 1⟩).2.2.1
      ⟨2020, 1, 1⟩ rfl (by decide)⟩

/-! ## Lemmas: the SQL sink loop -/

theorem mkRow_files_irrel (item : SinkItem) (fs : List FileInfo) (f : FileInfo) :
    mkRow { item with files := fs } f = mkRow item f := rfl

theorem sqlStep_files_irrel (c : List GazetteRow → GazetteRow → Bool)
    (item : SinkItem) (fs : List FileInfo) :
    sqlStep c { item with files := fs } = sqlStep c item := rfl

theorem sqlFold_filter (c : List GazetteRow → GazetteRow → Bool) (item : SinkItem) :
    ∀ (fs : List FileInfo) (st : List GazetteRow × List SinkLog),
      fs.foldl (sqlStep c item) st
        = (fs.filter (fun f => f.status ≠ "uptodate")).foldl (sqlStep c item) st := by
  intro fs
  induction fs with
  | nil => intro st; rfl
  | cons f rest ih =>
    intro st
    by_cases h : f.status = "uptodate"
    · have hstep : sqlStep c item st f = st := by simp [sqlStep, h]
      rw [List.foldl_cons, hstep, ih]
      congr 1
      simp [h]
    · have hfil : (f :: rest).filter (fun f => f.status ≠ "uptodate")
          = f :: rest.filter (fun f => f.status ≠ "uptodate") := by
        simp [h]
      rw [List.foldl_cons, ih, hfil, List.foldl_cons]

theorem sqlFold_all_commit (c : List GazetteRow → GazetteRow → Bool) (item : SinkItem)
    (hc : ∀ rows row, c rows row = true) :
    ∀ (fs : List FileInfo) (db0 : List GazetteRow) (logs : List SinkLog),
      (∀ f ∈ fs, f.status ≠ "uptodate") →
      fs.foldl (sqlStep c item) (db0, logs) = (db0 ++ fs.map (mkRow item), logs) := by
  intro fs
  induction fs with
  | nil => intro db0 logs _; simp
  | cons f rest ih =>
    intro db0 logs hall
    have h1 : f.status ≠ "uptodate" := hall f (by simp)
    have hstep : sqlStep c item (db0, logs) f = (db0 ++ [mkRow item f], logs) := by
      simp [sqlStep, h1, hc]
    rw [List.foldl_cons, hstep, ih (db0 ++ [mkRow item f]) logs
      (fun g hg => hall g (by simp [hg]))]
    simp

theorem sqlFold_db_indep (c : List GazetteRow → GazetteRow → Bool) (item : SinkItem) :
    ∀ (fs : List FileInfo) (d : List GazetteRow) (l l' : List SinkLog),
      (fs.foldl (sqlStep c item) (d, l)).1 = (fs.foldl (sqlStep c item) (d, l')).1 := by
  intro fs
  induction fs with
  | nil => intro d l l'; rfl
  | cons f rest ih =>
    intro d l l'
    rw [List.foldl_cons, List.foldl_cons]
    by_cases h1 : f.status = "uptodate"
    · simp only [sqlStep, h1, if_pos, ite_true]
      exact ih d l l'
    · by_cases h2 : c d (mkRow item f) = true
      · simp only [sqlStep, h1, ite_false, if_neg, h2, ite_true]
        exact ih (d ++ [mkRow item f]) l l'
      · simp only [sqlStep, h1, ite_false, if_neg, h2]
        exact ih d (l ++ [SinkLog.dbWarning item.date f.checksum])
          (l' ++ [SinkLog.dbWarning item.date f.checksum])

theorem sqlFold_logs_mono (c : List GazetteRow → GazetteRow → Bool) (item : SinkItem) :
    ∀ (fs : List FileInfo) (st : List GazetteRow × List SinkLog),
      ∃ tail, (fs.foldl (sqlStep c item) st).2 = st.2 ++ tail := by
  intro fs
  induction fs with
  | nil => intro st; exact ⟨[], by simp⟩
  | cons f rest ih =>
    intro st
    obtain ⟨t2, h2⟩ := ih (sqlStep c item st f)
    have hstep : ∃ e, (sqlStep c item st f).2 = st.2 ++ e := by
      by_cases h1 : f.status = "uptodate"
      · exact ⟨[], by simp [sqlStep, h1]⟩
      · by_cases h2 : c st.1 (mkRow item f) = true
        · exact ⟨[], by simp [sqlStep, h1, h2]⟩
        · exact ⟨[SinkLog.dbWarning item.date f.checksum], by simp [sqlStep, h1, h2]⟩
    obtain ⟨e, he⟩ := hstep
    exact ⟨e ++ t2, by rw [List.foldl_cons, h2, he, List.append_assoc]⟩

/-- C8: the sink skips `uptodate` files — they produce no database row and no
log — while the other files on the same item are persisted (shown under a
database that accepts every insertion), and the item itself is returned. -/
theorem uptodate_skip (commitOk : List GazetteRow → GazetteRow → Bool)
    (db : List GazetteRow) (item : SinkItem) :
    (sql_process_item commitOk db item).returned = item ∧
    (sql_process_item commitOk db item).db
      = (sql_process_item commitOk db
          { item with files := item.files.filter (fun f => f.status ≠ "uptodate") }).db ∧
    (sql_process_item commitOk db item).logs
      = (sql_process_item commitOk db
          { item with files := item.files.filter (fun f => f.status ≠ "uptodate") }).logs ∧
    ((∀ rows row, commitOk rows row = true) →
      (sql_process_item commitOk db item).db
        = db ++ (item.files.filter (fun f => f.status ≠ "uptodate")).map (mkRow item)) := by
  have hfold : item.files.foldl (sqlStep commitOk item) (db, [])
      = (item.files.filter (fun f => f.status ≠ "uptodate")).foldl
          (sqlStep commitOk item) (db, []) :=
    sqlFold_filter commitOk item item.files (db, [])
  refine ⟨rfl, ?_, ?_, ?_⟩
  · show (item.files.foldl (sqlStep commitOk item) (db, [])).1 = _
    rw [hfold]
    rfl
  · show (item.files.foldl (sqlStep commitOk item) (db, [])).2 = _
    rw [hfold]
    rfl
  · intro hc
    show (item.files.foldl (sqlStep commitOk item) (db, [])).1 = _
    rw [hfold, sqlFold_all_commit commitOk item hc _ db []
      (fun f hf => by
        have := List.of_mem_filter hf
        simpa using this)]

theorem uptodate_skip_witness :
    (sql_process_item (fun _ _ => true) []
        { c9item with files := [⟨"uptodate", "p0", "u0", "c0"⟩, c9f1] }).db
      = [] ++ ([⟨"uptodate", "p0", "u0", "c0"⟩, c9f1].filter
          (fun f => f.status ≠ "uptodate")).map
            (mkRow { c9item with files := [⟨"uptodate", "p0", "u0", "c0"⟩, c9f1] }) :=
  (uptodate_skip (fun _ _ => true) []
    { c9item with files := [⟨"uptodate", "p0", "u0", "c0"⟩, c9f1] }).2.2.2
    (fun _ _ => rfl)

/-- C9: when committing one file's row fails, the database is left as if
that insertion never happened (the run equals the run without that file, on
the database side), a warning naming the item's date and the file's checksum
is logged, and the item is still returned. -/
theorem sink_failure_atomicity (commitOk : List GazetteRow → GazetteRow → Bool)
    (db : List GazetteRow) (item : SinkItem) (pre post : List FileInfo) (f : FileInfo)
    (hfiles : item.files = pre ++ f :: post)
    (hstat : f.status ≠ "uptodate")
    (hfail : commitOk (pre.foldl (sqlStep commitOk item) (db, [])).1 (mkRow item f)
      = false) :
    (sql_process_item commitOk db item).db
      = (sql_process_item commitOk db { item with files := pre ++ post }).db ∧
    (sql_process_item commitOk db item).returned = item ∧
    SinkLog.dbWarning item.date f.checksum ∈ (sql_process_item commitOk db item).logs := by
  rcases hst1 : pre.foldl (sqlStep commitOk item) (db, []) with ⟨d1, l1⟩
  rw [hst1] at hfail
  have hstep : sqlStep commitOk item (d1, l1) f
      = (d1, l1 ++ [SinkLog.dbWarning item.date f.checksum]) := by
    simp only [sqlStep, hstat, ite_false, if_neg]
    simp [hfail]
  have hlhs : (sql_process_item commitOk db item).db
      = (post.foldl (sqlStep commitOk item)
          (d1, l1 ++ [SinkLog.dbWarning item.date f.checksum])).1 := by
    show (item.files.foldl (sqlStep commitOk item) (db, [])).1 = _
    rw [hfiles, List.foldl_append, hst1, List.foldl_cons, hstep]
  have hrhs : (sql_process_item commitOk db { item with files := pre ++ post }).db
      = (post.foldl (sqlStep commitOk item) (d1, l1)).1 := by
    show ((pre ++ post).foldl (sqlStep commitOk { item with files := pre ++ post })
        (db, [])).1 = _
    rw [sqlStep_files_irrel, List.foldl_append, hst1]
  refine ⟨?_, rfl, ?_⟩
  · rw [hlhs, hrhs]
    exact sqlFold_db_indep commitOk item post d1 _ l1
  · show SinkLog.dbWarning item.date f.checksum
      ∈ (item.files.foldl (sqlStep commitOk item) (db, [])).2
    rw [hfiles, List.foldl_append, hst1, List.foldl_cons, hstep]
    obtain ⟨tail, htail⟩ := sqlFold_logs_mono commitOk item post
      (d1, l1 ++ [SinkLog.dbWarning item.date f.checksum])
    rw [htail]
    simp

theorem sink_failure_atomicity_witness :
    (sql_process_item c9commit [] c9item).db
      = (sql_process_item c9commit [] { c9item with files := [c9f1, c9f3] }).db ∧
    (sql_process_item c9commit [] c9item).returned = c9item ∧
    SinkLog.dbWarning c9item.date c9f2.checksum
      ∈ (sql_process_item c9commit [] c9item).logs :=
  sink_failure_atomicity c9commit [] c9item [c9f1] [c9f3] c9f2 rfl
    (by decide) (by decide)

/-! ## C5/C6: storage paths -/

theorem file_path_fallback_eq (sp : String) (item : FilesItem) :
    file_path_fallback sp item
      = item.territory_id ++ "/" ++ dateStrftime item.date ++ "/" ++
          (if item.territory_id = "3543402" then pathStem sp else pathName sp) := by
  unfold file_path_fallback
  split_ifs <;> rfl

theorem file_path_no_sniff (sp : String) (r : ScrapyRequest)
    (resp? : Option ScrapyResponse) (item : FilesItem)
    (hnos : noSniffedName resp? = true) :
    file_path sp r resp? item = file_path_fallback sp item := by
  cases resp? with
  | none => rfl
  | some resp =>
    simp only [file_path]
    by_cases ht : item.territory_id = "3543402"
    · rw [if_pos ht]
      cases hlk : resp.headers.lookup "Content-Disposition" with
      | none => rfl
      | some cd =>
        simp only [noSniffedName, hlk] at hnos
        have hcond : ¬(cd ≠ [] ∧ (searchFilename cd).isSome = true) := by
          rintro ⟨h1, h2⟩
          have hnos' : cd.isEmpty = true ∨ (searchFilename cd).isNone = true := by
            simpa using hnos
          rcases hnos' with h | h
          · exact h1 (by simpa using h)
          · rw [Option.isNone_iff_eq_none.mp h] at h2
            simp at h2
        simp only [sniffDecision]
        rw [if_neg hcond]
    · rw [if_neg ht]

theorem file_path_other_territory (sp : String) (r : ScrapyRequest)
    (resp? : Option ScrapyResponse) (item : FilesItem)
    (ht : item.territory_id ≠ "3543402") :
    file_path sp r resp? item = file_path_fallback sp item := by
  cases resp? with
  | none => rfl
  | some resp =>
    simp only [file_path]
    rw [if_neg ht]

theorem file_path_sniff (sp : String) (r : ScrapyRequest) (resp : ScrapyResponse)
    (item : FilesItem) (cd : Bytes) (ht : item.territory_id = "3543402")
    (hlk : resp.headers.lookup "Content-Disposition" = some cd)
    (h1 : cd ≠ []) (h2 : (searchFilename cd).isSome = true) :
    file_path sp r (some resp) item = file_path_for_sp_ribeirao_preto resp item := by
  simp only [file_path]
  rw [if_pos ht, hlk]
  simp only [sniffDecision]
  rw [if_pos ⟨h1, h2⟩]

/-- C5: for territory 3543402, when the `Content-Disposition` header carries a
well-formed `filename="..."`, the stored path is
`<territory_id>/<YYYY-MM-DD>/<sha1 hex of exactly the embedded filename
bytes>`, identical across invocations whatever the request (and whatever the
default URL-derived path) — the URL plays no part. -/
theorem content_sniffing_determinism (sp1 sp2 : String) (r1 r2 : ScrapyRequest)
    (resp : ScrapyResponse) (item : FilesItem) (cd fname : Bytes)
    (hterr : item.territory_id = "3543402")
    (hcd : resp.headers.lookup "Content-Disposition" = some cd)
    (hmatch : searchFilename cd = some fname) :
    file_path sp1 r1 (some resp) item
      = item.territory_id ++ "/" ++ dateStrftime item.date ++ "/" ++ sha1Hex fname ∧
    file_path sp1 r1 (some resp) item = file_path sp2 r2 (some resp) item := by
  have hne : cd ≠ [] := by
    intro h
    rw [h] at hmatch
    simp [searchFilename] at hmatch
  have hsome : (searchFilename cd).isSome = true := by
    rw [hmatch]
    rfl
  have hpath : ∀ (sp : String) (r : ScrapyRequest),
      file_path sp r (some resp) item
        = item.territory_id ++ "/" ++ dateStrftime item.date ++ "/" ++ sha1Hex fname := by
    intro sp r
    rw [file_path_sniff sp r resp item cd hterr hcd hne hsome]
    unfold file_path_for_sp_ribeirao_preto
    rw [hcd]
    simp [hmatch]
  exact ⟨hpath sp1 r1, (hpath sp1 r1).trans (hpath sp2 r2).symm⟩

theorem content_sniffing_determinism_witness :
    file_path "full/a1.xhtml" ⟨"https://host-one/doc.xhtml"⟩
        (some ⟨[("Content-Disposition", c5header)]⟩) ⟨⟨2024, 3, 7⟩, "3543402"⟩
      = "3543402" ++ "/" ++ dateStrftime ⟨2024, 3, 7⟩ ++ "/" ++ sha1Hex c5fname ∧
    file_path "full/a1.xhtml" ⟨"https://host-one/doc.xhtml"⟩
        (some ⟨[("Content-Disposition", c5header)]⟩) ⟨⟨2024, 3, 7⟩, "3543402"⟩
      = file_path "full/b2.xhtml" ⟨"https://host-two/other.xhtml"⟩
        (some ⟨[("Content-Disposition", c5header)]⟩) ⟨⟨2024, 3, 7⟩, "3543402"⟩ :=
  content_sniffing_determinism "full/a1.xhtml" "full/b2.xhtml"
    ⟨"https://host-one/doc.xhtml"⟩ ⟨"https://host-two/other.xhtml"⟩
    ⟨[("Content-Disposition", c5header)]⟩ ⟨⟨2024, 3, 7⟩, "3543402"⟩ c5header c5fname
    rfl (by decide) (by decide)

/-- C6: every computed path has the form `<territory_id>/<YYYY-MM-DD>/<fn>`;
for territory 3543402 with no usable sniffed filename the base name is kept
with its trailing extension stripped (`Path(...).stem`), while any other
territory keeps the default base name (`Path(...).name`) unmodified. -/
theorem wrong_extension_fallback (sp : String) (r : ScrapyRequest)
    (resp? : Option ScrapyResponse) (item : FilesItem) :
    (∃ fn, file_path sp r resp? item
        = item.territory_id ++ "/" ++ dateStrftime item.date ++ "/" ++ fn) ∧
    (item.territory_id = "3543402" → noSniffedName resp? = true →
      file_path sp r resp? item
        = item.territory_id ++ "/" ++ dateStrftime item.date ++ "/" ++ pathStem sp) ∧
    (item.territory_id ≠ "3543402" →
      file_path sp r resp? item
        = item.territory_id ++ "/" ++ dateStrftime item.date ++ "/" ++ pathName sp) := by
  have hstem : item.territory_id = "3543402" → noSniffedName resp? = true →
      file_path sp r resp? item
        = item.territory_id ++ "/" ++ dateStrftime item.date ++ "/" ++ pathStem sp := by
    intro ht hnos
    rw [file_path_no_sniff sp r resp? item hnos, file_path_fallback_eq, if_pos ht]
  have hname : item.territory_id ≠ "3543402" →
      file_path sp r resp? item
        = item.territory_id ++ "/" ++ dateStrftime item.date ++ "/" ++ pathName sp := by
    intro ht
    rw [file_path_other_territory sp r resp? item ht, file_path_fallback_eq, if_neg ht]
  refine ⟨?_, hstem, hname⟩
  by_cases ht : item.territory_id = "3543402"
  · by_cases hnos : noSniffedName resp? = true
    · exact ⟨pathStem sp, hstem ht hnos⟩
    · rw [Bool.not_eq_true] at hnos
      cases resp? with
      | none => simp [noSniffedName] at hnos
      | some resp =>
        cases hlk : resp.headers.lookup "Content-Disposition" with
        | none => simp [noSniffedName, hlk] at hnos
        | some cd =>
          simp only [noSniffedName, hlk, Bool.or_eq_false_iff] at hnos
          obtain ⟨hne, hnn⟩ := hnos
          have h1 : cd ≠ [] := by
            intro hcd
            rw [hcd] at hne
            simp at hne
          have h2 : (searchFilename cd).isSome = true := by
            cases hs : searchFilename cd with
            | none =>
              rw [hs] at hnn
              simp at hnn
            | some g => rfl
          refine ⟨sha1Hex ((searchFilename ((resp.headers.lookup
            "Content-Disposition").getD [])).getD []), ?_⟩
          rw [file_path_sniff sp r resp item cd ht hlk h1 h2]
          rfl
  · exact ⟨pathName sp, hname ht⟩

theorem wrong_extension_fallback_witness :
    file_path "full/2b1a.xhtml" ⟨"https://u"⟩ none ⟨⟨2024, 3, 7⟩, "3543402"⟩
      = "3543402" ++ "/" ++ dateStrftime ⟨2024, 3, 7⟩ ++ "/" ++ pathStem "full/2b1a.xhtml" ∧
    file_path "full/2b1a.pdf" ⟨"https://u"⟩ none ⟨⟨2024, 3, 7⟩, "1100122"⟩
      = "1100122" ++ "/" ++ dateStrftime ⟨2024, 3, 7⟩ ++ "/" ++ pathName "full/2b1a.pdf" :=
  ⟨(wrong_extension_fallback "full/2b1a.xhtml" ⟨"https://u"⟩ none
      ⟨⟨2024, 3, 7⟩, "3543402"⟩).2.1 rfl rfl,
    (wrong_extension_fallback "full/2b1a.pdf" ⟨"https://u"⟩ none
      ⟨⟨2024, 3, 7⟩, "1100122"⟩).2.2 (by decide)⟩

/-! ## Lemmas: association lists with unique keys -/

theorem lookup_eq_some_of_mem {α β : Type} [BEq α] [LawfulBEq α] {k : α} {v : β} :
    ∀ {l : List (α × β)}, (l.map Prod.fst).Nodup → (k, v) ∈ l → l.lookup k = some v
  | [], _, h => by simp at h
  | (k', v') :: rest, hnd, h => by
    rw [List.map_cons, List.nodup_cons] at hnd
    rcases List.mem_cons.mp h with heq | hmem
    · have h1 : k = k' := congrArg Prod.fst heq
      have h2 : v = v' := congrArg Prod.snd heq
      subst h1
      subst h2
      simp [List.lookup]
    · have hne : (k == k') = false := by
        refine beq_eq_false_iff_ne.mpr ?_
        intro hkk
        apply hnd.1
        rw [← hkk]
        exact List.mem_map.mpr ⟨(k, v), hmem, rfl⟩
      simp only [List.lookup, hne]
      exact lookup_eq_some_of_mem hnd.2 hmem

theorem mem_of_lookup_eq_some {α β : Type} [BEq α] [LawfulBEq α] {k : α} {v : β} :
    ∀ {l : List (α × β)}, l.lookup k = some v → (k, v) ∈ l
  | [], h => by simp [List.lookup] at h
  | (k', v') :: rest, h => by
    by_cases hk : (k == k') = true
    · obtain rfl : k = k' := eq_of_beq hk
      simp only [List.lookup, beq_self_eq_true] at h
      obtain rfl : v' = v := by injection h
      exact List.mem_cons_self _ _
    · have hne : (k == k') = false := by rwa [Bool.not_eq_true] at hk
      simp only [List.lookup, hne] at h
      exact List.mem_cons_of_mem _ (mem_of_lookup_eq_some h)

theorem assoc_value_unique {α β : Type} [BEq α] [LawfulBEq α] {l : List (α × β)}
    {k : α} {v1 v2 : β} (hnd : (l.map Prod.fst).Nodup)
    (h1 : (k, v1) ∈ l) (h2 : (k, v2) ∈ l) : v1 = v2 := by
  have e1 := lookup_eq_some_of_mem hnd h1
  have e2 := lookup_eq_some_of_mem hnd h2
  rw [e1] at e2
  injection e2

/-! ## Lemmas: the aggregation state is well-formed -/

theorem insertUrl_ne_nil (us : List String) (u : String) : insertUrl us u ≠ [] := by
  unfold insertUrl
  split_ifs with h
  · intro hn
    rw [hn] at h
    simp at h
  · simp

theorem insertInner_keys (m : InnerMap) (t u : String) :
    (insertInner m t u).map Prod.fst
      = if t ∈ m.map Prod.fst then m.map Prod.fst else m.map Prod.fst ++ [t] := by
  induction m with
  | nil => simp [insertInner]
  | cons p rest ih =>
    obtain ⟨k, us⟩ := p
    by_cases h : k = t
    · subst h
      simp [insertInner]
    · by_cases h2 : t ∈ rest.map Prod.fst
      · simp [insertInner, h, ih, h2, Ne.symm h]
      · simp [insertInner, h, ih, h2, Ne.symm h]

theorem insertInner_values {m : InnerMap} (hv : ∀ p ∈ m, p.2 ≠ []) (t u : String) :
    ∀ p ∈ insertInner m t u, p.2 ≠ [] := by
  induction m with
  | nil =>
    intro p hp
    simp only [insertInner, List.mem_singleton] at hp
    subst hp
    simp
  | cons q rest ih =>
    obtain ⟨k, us⟩ := q
    intro p hp
    by_cases h : k = t
    · subst h
      simp only [insertInner, ite_true, if_pos] at hp
      rcases List.mem_cons.mp hp with h | h
      · subst h
        exact insertUrl_ne_nil us u
      · exact hv p (List.mem_cons_of_mem _ h)
    · simp only [insertInner, h, ite_false, if_neg] at hp
      rcases List.mem_cons.mp hp with h | h
      · subst h
        exact hv (k, us) (List.mem_cons_self _ _)
      · exact ih (fun q hq => hv q (List.mem_cons_of_mem _ hq)) p h

theorem InnerWF_insertInner {m : InnerMap} (h : InnerWF m) (t u : String) :
    InnerWF (insertInner m t u) := by
  refine ⟨?_, insertInner_values h.2 t u⟩
  rw [insertInner_keys]
  split_ifs with h2
  · exact h.1
  · simp [List.nodup_append, h.1, h2]

theorem insertOuter_values {s : GazettesDataPerPage} (hv : ∀ p ∈ s, InnerWF p.2)
    (key : GroupKey) (t u : String) :
    ∀ p ∈ insertOuter s key t u, InnerWF p.2 := by
  induction s with
  | nil =>
    intro p hp
    simp only [insertOuter, List.mem_singleton] at hp
    subst hp
    exact ⟨by simp, by simp⟩
  | cons q rest ih =>
    obtain ⟨k, m⟩ := q
    intro p hp
    by_cases h : k = key
    · subst h
      simp only [insertOuter, ite_true, if_pos] at hp
      rcases List.mem_cons.mp hp with h | h
      · subst h
        exact InnerWF_insertInner (hv (k, m) (List.mem_cons_self _ _)) t u
      · exact hv p (List.mem_cons_of_mem _ h)
    · simp only [insertOuter, h, ite_false, if_neg] at hp
      rcases List.mem_cons.mp hp with h | h
      · subst h
        exact hv (k, m) (List.mem_cons_self _ _)
      · exact ih (fun q hq => hv q (List.mem_cons_of_mem _ hq)) p h

theorem insertOuter_keys (s : GazettesDataPerPage) (key : GroupKey) (t u : String) :
    (insertOuter s key t u).map Prod.fst
      = if key ∈ s.map Prod.fst then s.map Prod.fst else s.map Prod.fst ++ [key] := by
  induction s with
  | nil => simp [insertOuter]
  | cons p rest ih =>
    obtain ⟨k, m⟩ := p
    by_cases h : k = key
    · subst h
      simp [insertOuter]
    · by_cases h2 : key ∈ rest.map Prod.fst
      · simp [insertOuter, h, ih, h2, Ne.symm h]
      · simp [insertOuter, h, ih, h2, Ne.symm h]

theorem StateWF_validate_uniqueness {s : GazettesDataPerPage} (h : StateWF s)
    (d : PyDate) (en : String) (ex : Bool) (t u : String) :
    StateWF (validate_uniqueness s d en ex t u) := by
  unfold validate_uniqueness
  split_ifs
  · exact h
  · refine ⟨?_, insertOuter_values h.2 _ t u⟩
    rw [insertOuter_keys]
    split_ifs with h2
    · exact h.1
    · simp [List.nodup_append, h.1, h2]

theorem StateWF_registerAll (ts : List Triple) : StateWF (registerAll ts) := by
  suffices hgen : ∀ s, StateWF s →
      StateWF (ts.foldl (fun s t =>
        validate_uniqueness s t.date t.edition_number t.is_extra_edition t.text t.url) s) by
    exact hgen [] ⟨List.nodup_nil, by simp⟩
  induction ts with
  | nil => intro s hs; exact hs
  | cons t rest ih =>
    intro s hs
    rw [List.foldl_cons]
    exact ih _ (StateWF_validate_uniqueness hs _ _ _ _ _)

/-! ## Lemmas: the `_yield_gazettes` inner loop -/

theorem collectFold_false (m : InnerMap) :
    ∀ (ks : List String) (acc : Bool × List String), acc.1 = false →
      (ks.foldl (collectStep m) acc).1 = false := by
  intro ks
  induction ks with
  | nil => intro acc h; exact h
  | cons k rest ih =>
    intro acc h
    rw [List.foldl_cons]
    apply ih
    unfold collectStep
    cases hlk : m.lookup k with
    | none => exact h
    | some us =>
      simp only [collectBranch]
      split_ifs
      · rfl
      · exact h

theorem collectFold_conflict (m : InnerMap) (t : String) (us : List String)
    (hlk : m.lookup t = some us) (hlen : 1 < us.length) :
    ∀ (ks : List String) (acc : Bool × List String), t ∈ ks →
      (ks.foldl (collectStep m) acc).1 = false := by
  intro ks
  induction ks with
  | nil => intro acc h; simp at h
  | cons k rest ih =>
    intro acc hmem
    rw [List.foldl_cons]
    by_cases hk : k = t
    · subst hk
      apply collectFold_false
      unfold collectStep
      rw [hlk]
      simp [collectBranch, hlen]
    · rcases List.mem_cons.mp hmem with h | h
      · exact absurd h.symm hk
      · exact ih _ h

theorem collectFold_clean (m : InnerMap)
    (hall : ∀ k us, m.lookup k = some us → us.length = 1) :
    ∀ (ks : List String) (b : Bool) (l : List String),
      ks.foldl (collectStep m) (b, l)
        = (b, l ++ ks.filterMap (fun k => (m.lookup k).bind List.head?)) := by
  intro ks
  induction ks with
  | nil => intro b l; simp
  | cons k rest ih =>
    intro b l
    rw [List.foldl_cons]
    cases hlk : m.lookup k with
    | none =>
      have hstep : collectStep m (b, l) k = (b, l) := by
        unfold collectStep
        rw [hlk]
        rfl
      rw [hstep, ih, List.filterMap_cons, hlk]
      simp
    | some us =>
      obtain ⟨a, rfl⟩ := List.length_eq_one.mp (hall k us hlk)
      have hstep : collectStep m (b, l) k = (b, l ++ [a]) := by
        unfold collectStep
        rw [hlk]
        simp [collectBranch]
      rw [hstep, ih, List.filterMap_cons, hlk]
      simp

theorem collectUrls_conflict {m : InnerMap} (hnd : (m.map Prod.fst).Nodup)
    {t : String} {us : List String} (hmem : (t, us) ∈ m) (hlen : 1 < us.length) :
    (collectUrls m).1 = false := by
  apply collectFold_conflict m t us (lookup_eq_some_of_mem hnd hmem) hlen
  rw [sortedKeys, List.mem_insertionSort]
  exact List.mem_map.mpr ⟨(t, us), hmem, rfl⟩

theorem collectUrls_clean {m : InnerMap} (hall : ∀ p ∈ m, p.2.length = 1) :
    collectUrls m
      = (true, (sortedKeys m).filterMap (fun k => (m.lookup k).bind List.head?)) := by
  unfold collectUrls
  rw [collectFold_clean m
    (fun k us hlk => hall (k, us) (mem_of_lookup_eq_some hlk)) (sortedKeys m) true []]
  simp

theorem no_conflict_of_flag {m : InnerMap} (hnd : (m.map Prod.fst).Nodup)
    (hflag : (collectUrls m).1 = true) : ∀ p ∈ m, p.2.length ≤ 1 := by
  intro p hp
  by_contra hgt
  push_neg at hgt
  obtain ⟨t, us⟩ := p
  rw [collectUrls_conflict hnd hp hgt] at hflag
  exact Bool.false_ne_true hflag

theorem yield_gazettes_cons_true {key : GroupKey} {m : InnerMap}
    {rest : GazettesDataPerPage} (h : (collectUrls m).1 = true) :
    yield_gazettes ((key, m) :: rest)
      = mkGazette key (collectUrls m).2 :: yield_gazettes rest := by
  simp [yield_gazettes, h]

theorem yield_gazettes_cons_false {key : GroupKey} {m : InnerMap}
    {rest : GazettesDataPerPage} (h : (collectUrls m).1 = false) :
    yield_gazettes ((key, m) :: rest) = yield_gazettes rest := by
  simp [yield_gazettes, h]

theorem mem_yield_gazettes : ∀ (s : GazettesDataPerPage) (g : Gazette),
    g ∈ yield_gazettes s ↔
      ∃ p ∈ s, (collectUrls p.2).1 = true ∧ g = mkGazette p.1 (collectUrls p.2).2
  | [], g => by simp [yield_gazettes]
  | (key, m) :: rest, g => by
    by_cases h : (collectUrls m).1 = true
    · rw [yield_gazettes_cons_true h, List.mem_cons]
      constructor
      · rintro (rfl | hmem)
        · exact ⟨(key, m), List.mem_cons_self _ _, h, rfl⟩
        · obtain ⟨p, hp, hf, rfl⟩ := (mem_yield_gazettes rest g).mp hmem
          exact ⟨p, List.mem_cons_of_mem _ hp, hf, rfl⟩
      · rintro ⟨p, hp, hf, hgeq⟩
        rcases List.mem_cons.mp hp with rfl | hp'
        · exact Or.inl hgeq
        · exact Or.inr ((mem_yield_gazettes rest g).mpr ⟨p, hp', hf, hgeq⟩)
    · have hf0 : (collectUrls m).1 = false := by rwa [Bool.not_eq_true] at h
      rw [yield_gazettes_cons_false hf0]
      constructor
      · intro hmem
        obtain ⟨p, hp, hfl, hgeq⟩ := (mem_yield_gazettes rest g).mp hmem
        exact ⟨p, List.mem_cons_of_mem _ hp, hfl, hgeq⟩
      · rintro ⟨p, hp, hfl, hgeq⟩
        rcases List.mem_cons.mp hp with rfl | hp'
        · simp [hf0] at hfl
        · exact (mem_yield_gazettes rest g).mpr ⟨p, hp', hfl, hgeq⟩

/-! ## C1: all-or-nothing conflict rejection -/

/-- C1: if any PartKey of an aggregated GroupKey holds more than one distinct
URL at finalize time, no gazette whatsoever is emitted for that GroupKey —
while every other, conflict-free GroupKey on the same page still is. -/
theorem conflict_all_or_nothing (ts : List Triple) (key : GroupKey) (m : InnerMap)
    (hmem : (key, m) ∈ registerAll ts)
    (hconf : ∃ p ∈ m, 1 < p.2.length) :
    (∀ g ∈ yield_gazettes (registerAll ts),
      ¬(g.date = key.date ∧ g.edition_number = key.edition_number ∧
        g.is_extra_edition = key.is_extra_edition)) ∧
    (∀ key' m', (key', m') ∈ registerAll ts → key' ≠ key →
      (∀ p ∈ m', p.2.length = 1) →
      ∃ g ∈ yield_gazettes (registerAll ts),
        g.date = key'.date ∧ g.edition_number = key'.edition_number ∧
        g.is_extra_edition = key'.is_extra_edition) := by
  obtain ⟨⟨t, us⟩, hpm, hlen⟩ := hconf
  have hwf := StateWF_registerAll ts
  have hinner : InnerWF m := hwf.2 (key, m) hmem
  have hflag : (collectUrls m).1 = false := collectUrls_conflict hinner.1 hpm hlen
  constructor
  · intro g hg hmatch
    obtain ⟨p, hp, hpflag, rfl⟩ := (mem_yield_gazettes _ _).mp hg
    obtain ⟨pk, pm⟩ := p
    obtain ⟨pd, pen, pex⟩ := pk
    obtain ⟨kd, ken, kex⟩ := key
    obtain ⟨h1, h2, h3⟩ := hmatch
    simp only [mkGazette] at h1 h2 h3
    subst h1
    subst h2
    subst h3
    have hpmm : pm = m := assoc_value_unique hwf.1 hp hmem
    rw [hpmm, hflag] at hpflag
    exact Bool.false_ne_true hpflag
  · intro key' m' hmem' _hne hall
    have hinner' : InnerWF m' := hwf.2 (key', m') hmem'
    have hflag' : (collectUrls m').1 = true := by
      rw [collectUrls_clean hall]
    refine ⟨mkGazette key' (collectUrls m').2,
      (mem_yield_gazettes _ _).mpr ⟨(key', m'), hmem', hflag', rfl⟩, rfl, rfl, rfl⟩

theorem conflict_all_or_nothing_witness :
    (¬((mkGazette ⟨⟨2010, 7, 14⟩, "874", false⟩ ["u3"]).date = PyDate.mk 2010 4 15 ∧
      (mkGazette ⟨⟨2010, 7, 14⟩, "874", false⟩ ["u3"]).edition_number = "813" ∧
      (mkGazette ⟨⟨2010, 7, 14⟩, "874", false⟩ ["u3"]).is_extra_edition = false)) ∧
    (∃ g ∈ yield_gazettes (registerAll
        [⟨⟨2010, 4, 15⟩, "813", false, "", "u1"⟩,
         ⟨⟨2010, 4, 15⟩, "813", false, "", "u2"⟩,
         ⟨⟨2010, 7, 14⟩, "874", false, "", "u3"⟩]),
      g.date = (⟨⟨2010, 7, 14⟩, "874", false⟩ : GroupKey).date ∧
      g.edition_number = (⟨⟨2010, 7, 14⟩, "874", false⟩ : GroupKey).edition_number ∧
      g.is_extra_edition = (⟨⟨2010, 7, 14⟩, "874", false⟩ : GroupKey).is_extra_edition) :=
  ⟨(conflict_all_or_nothing
      [⟨⟨2010, 4, 15⟩, "813", false, "", "u1"⟩,
       ⟨⟨2010, 4, 15⟩, "813", false, "", "u2"⟩,
       ⟨⟨2010, 7, 14⟩, "874", false, "", "u3"⟩]
      ⟨⟨2010, 4, 15⟩, "813", false⟩ [("", ["u1", "u2"])]
      (by decide) (by decide)).1
      (mkGazette ⟨⟨2010, 7, 14⟩, "874", false⟩ ["u3"]) (by decide),
    (conflict_all_or_nothing
      [⟨⟨2010, 4, 15⟩, "813", false, "", "u1"⟩,
       ⟨⟨2010, 4, 15⟩, "813", false, "", "u2"⟩,
       ⟨⟨2010, 7, 14⟩, "874", false, "", "u3"⟩]
      ⟨⟨2010, 4, 15⟩, "813", false⟩ [("", ["u1", "u2"])]
      (by decide) (by decide)).2
      ⟨⟨2010, 7, 14⟩, "874", false⟩ [("", ["u3"])]
      (by decide) (by decide) (by decide)⟩

/-! ## C2: deterministic PartKey ordering -/

/-- C2: every emitted gazette lists its documents in the order given by the
lexicographic (code-point, case-sensitive) sort of its group's PartKeys —
`sortedKeys` really is a sort (sorted and a permutation of the dict keys) —
and in particular inserting `"Parte 2" ↦ urlB` before `"Parte 1" ↦ urlA`
still emits `[urlA, urlB]`. -/
theorem deterministic_partkey_ordering :
    (∀ (ts : List Triple) (g : Gazette), g ∈ yield_gazettes (registerAll ts) →
      ∃ p ∈ registerAll ts,
        g = mkGazette p.1
          ((sortedKeys p.2).filterMap (fun k => (p.2.lookup k).bind List.head?))) ∧
    (∀ m : InnerMap,
      (sortedKeys m).Sorted strLe ∧ (sortedKeys m).Perm (m.map Prod.fst)) ∧
    yield_gazettes (registerAll
      [⟨⟨2010, 4, 15⟩, "813", false, "Parte 2", "urlB"⟩,
       ⟨⟨2010, 4, 15⟩, "813", false, "Parte 1", "urlA"⟩])
      = [mkGazette ⟨⟨2010, 4, 15⟩, "813", false⟩ ["urlA", "urlB"]] := by
  refine ⟨?_, ?_, by decide⟩
  · intro ts g hg
    have hwf := StateWF_registerAll ts
    obtain ⟨p, hp, hflag, rfl⟩ := (mem_yield_gazettes _ _).mp hg
    refine ⟨p, hp, ?_⟩
    have hinner : InnerWF p.2 := hwf.2 p hp
    have hall : ∀ q ∈ p.2, q.2.length = 1 := by
      intro q hq
      have h1 := no_conflict_of_flag hinner.1 hflag q hq
      have h2 : 0 < q.2.length := List.length_pos.mpr (hinner.2 q hq)
      omega
    rw [collectUrls_clean hall]
  · intro m
    exact ⟨List.sorted_insertionSort strLe (m.map Prod.fst),
      List.perm_insertionSort strLe (m.map Prod.fst)⟩

theorem deterministic_partkey_ordering_witness :
    ∃ p ∈ registerAll
        [⟨⟨2010, 4, 15⟩, "813", false, "Parte 2", "urlB"⟩,
         ⟨⟨2010, 4, 15⟩, "813", false, "Parte 1", "urlA"⟩],
      mkGazette ⟨⟨2010, 4, 15⟩, "813", false⟩ ["urlA", "urlB"]
        = mkGazette p.1
            ((sortedKeys p.2).filterMap (fun k => (p.2.lookup k).bind List.head?)) :=
  deterministic_partkey_ordering.1
    [⟨⟨2010, 4, 15⟩, "813", false, "Parte 2", "urlB"⟩,
     ⟨⟨2010, 4, 15⟩, "813", false, "Parte 1", "urlA"⟩]
    (mkGazette ⟨⟨2010, 4, 15⟩, "813", false⟩ ["urlA", "urlB"]) (by decide)

end QD
